import Mathlib

set_option maxHeartbeats 1000000

/-!
Shallow embedding of the settings service of the x-ui repository
(`web/service/setting.go`, provided as `src/unnamed/part_000`).

The backing row store (a GORM table of `model.Setting{Key, Value}` rows) is
modelled as a list of `(key, value)` pairs together with the set of keys whose
storage writes fail (the storage-error boundary of the spec, §6/§7).  The
aggregate `entity.AllSetting` and its `CheckValid` method are not part of the
provided sources; they are modelled from the spec (see the doc comments of
`AllSetting` and `CheckValid`).

Machine integers: Go's `int` is 64-bit on the target platform; stored values
are parsed with `strconv.ParseInt(value, 10, 32)` inside `GetAllSetting` and
with `strconv.Atoi` (= `ParseInt(s, 10, 0)`, i.e. 64-bit) inside `getInt`.
Integers are embedded as `Int` with explicit range checks, exactly as
`strconv` performs them.
-/

namespace XUI

/-- Character of the decimal digit `d` (for `d < 10`): code point `48 + d`. -/
def toDigitChar (d : Nat) : Char := Char.ofNat (48 + d)

/-- Returns `true` iff `c` is one of the characters `0`..`9`. -/
def isDigitChar (c : Char) : Bool := 48 ≤ c.toNat && c.toNat ≤ 57

/-- Numeric value of a decimal digit character. -/
def digitVal (c : Char) : Nat := c.toNat - 48

/-- Structural helper for `natDigits`: `fuel` bounds the recursion depth
(any `fuel > n` is enough). -/
def natDigitsAux : Nat → Nat → List Char
  | 0, _ => []
  | fuel + 1, n =>
    if n < 10 then [toDigitChar n]
    else natDigitsAux fuel (n / 10) ++ [toDigitChar (n % 10)]

/-- Big-endian decimal digit characters of a natural number.  This embeds the
decimal formatting performed by Go's `strconv.Itoa` / `fmt.Sprint` on
integers. -/
def natDigits (n : Nat) : List Char := natDigitsAux (n + 1) n

/-- Numeric value of a list of decimal digit characters. -/
def parseDigits (cs : List Char) : Nat := cs.foldl (fun a c => 10 * a + digitVal c) 0

/-- Strip an optional leading sign, as Go's `strconv.ParseInt` does:
returns `(negative, remaining characters)`. -/
def splitSign (l : List Char) : Bool × List Char :=
  match l with
  | [] => (false, [])
  | c :: rest =>
    if c = '-' then (true, rest)
    else if c = '+' then (false, rest)
    else (false, c :: rest)

/-- The two failure modes of Go's `strconv.ParseInt`: `ErrSyntax` and
`ErrRange`. -/
inductive ParseIntError where
  | syntaxErr
  | rangeErr
deriving DecidableEq, Repr

/-- Embeds Go's `strconv.ParseInt(s, 10, bitSize)`: an optional sign followed
by one or more decimal digits (base 10 is given explicitly, so no underscores
or prefixes are accepted); the resulting value must lie in `[lo, hi]`,
otherwise `ErrRange`. -/
def goParseInt (lo hi : Int) (s : String) : Except ParseIntError Int :=
  let p := splitSign s.data
  if p.2.isEmpty then .error .syntaxErr
  else if p.2.all isDigitChar then
    let v : Int := if p.1 then -(parseDigits p.2 : Int) else (parseDigits p.2 : Int)
    if v < lo ∨ hi < v then .error .rangeErr else .ok v
  else .error .syntaxErr

/-- Embeds `strconv.ParseInt(s, 10, 32)`, as called in `GetAllSetting.setSetting`. -/
def goParseInt32 (s : String) : Except ParseIntError Int :=
  goParseInt (-(2 ^ 31)) (2 ^ 31 - 1) s

/-- Embeds `strconv.Atoi(s)` = `ParseInt(s, 10, 0)` with 64-bit `int`, as called in
`getInt`. -/
def goAtoi (s : String) : Except ParseIntError Int :=
  goParseInt (-(2 ^ 63)) (2 ^ 63 - 1) s

/-- Embeds `fmt.Sprint` / `strconv.Itoa` applied to a Go `int`: base-10
decimal, with a leading `-` for negative values. -/
def goFormatInt (n : Int) : String :=
  if n < 0 then ⟨'-' :: natDigits n.natAbs⟩ else ⟨natDigits n.toNat⟩

/-- The errors observable from the settings service in this embedding.
`storageWrite k` is a storage-layer failure of the write for key `k`
(spec §6/§7: storage errors propagate verbatim and, in a bulk write, are
aggregated per failed key); `combined ks` is `common.Combine` applied to the
per-key write failures for the keys `ks`; `keyNotInDefaults k` is the
`common.NewErrorf("key <%v> not in defaultValueMap", key)` configuration
error of `getString`; `validation` is an `entity.AllSetting.CheckValid`
failure. -/
inductive GoError where
  | parse (e : ParseIntError)
  | keyNotInDefaults (key : String)
  | validation (msg : String)
  | storageWrite (key : String)
deriving DecidableEq, Repr

/-- The backing store: the `setting` table rows (key/value pairs, keys unique
in every reachable state per the data model) plus the set of keys whose
storage-layer writes fail (the injected storage-error boundary; a key not in
`failKeys` has reliable writes). -/
structure DB where
  rows : List (String × String)
  failKeys : List String
deriving DecidableEq, Repr

/-- Embeds `getSetting`: `SELECT ... WHERE key = ? LIMIT 1` — the first row whose key
matches, `none` for GORM's `ErrRecordNotFound`. -/
def findRow (rows : List (String × String)) (key : String) : Option (String × String) :=
  rows.find? (fun r => r.1 == key)

/-- The update path of `saveSetting`: GORM `db.Save` of the row that
`getSetting` found (the first row with the key), with its value replaced. -/
def updateRowFirst : List (String × String) → String → String → List (String × String)
  | [], _, _ => []
  | r :: rest, key, value =>
    if r.1 = key then (key, value) :: rest else r :: updateRowFirst rest key value

/-- Embeds `saveSetting`: read the row for `key`; if not found, `db.Create` a new
row; otherwise `db.Save` the row with the new value.  A key in `failKeys` has
its write fail at the storage layer, leaving the rows unchanged and returning
the storage error. -/
def saveSetting (db : DB) (key value : String) : DB × Option GoError :=
  if key ∈ db.failKeys then (db, some (.storageWrite key))
  else
    match findRow db.rows key with
    | none => ({ db with rows := db.rows ++ [(key, value)] }, none)
    | some _ => ({ db with rows := updateRowFirst db.rows key value }, none)

/-- The per-field write loop of `UpdateAllSetting`: `saveSetting` each pair in
order, collecting every error (`errs = append(errs, err)`) and continuing past
failures. -/
def saveAll (db : DB) : List (String × String) → DB × List GoError
  | [] => (db, [])
  | p :: rest =>
    let r1 := saveSetting db p.1 p.2
    let r2 := saveAll r1.1 rest
    (r2.1, match r1.2 with | none => r2.2 | some e => e :: r2.2)

/-- Modelled from the spec: `entity.AllSetting` is not part of the provided
sources.  Per spec §3 it is the flat typed aggregate of the user-configurable
options, each field annotated with its external key (its `json` tag), fields
of scalar string/int type; the recognized keys are the Default Catalog keys
minus the auto-generated `secret` (spec §3: generated/internal keys are not
exposed through the aggregate).  Field order follows the upstream declaration
order. -/
structure AllSetting where
  webListen : String := ""
  webPort : Int := 0
  webCertFile : String := ""
  webKeyFile : String := ""
  webBasePath : String := ""
  xrayTemplateConfig : String := ""
  timeLocation : String := ""
deriving DecidableEq, Repr

/-- The map `defaultValueMap` (source lines 27–36), parameterized by the embedded
`config.json` template (`tmpl`) and the per-process random secret
`random.Seq(32)` (`secret`), both opaque strings here.  Go map iteration
order is unspecified; the entries are listed in source order, and no result
below depends on the order. -/
def defaultValueMap (tmpl secret : String) : List (String × String) :=
  [("xrayTemplateConfig", tmpl),
   ("webListen", ""),
   ("webPort", "54321"),
   ("webCertFile", ""),
   ("webKeyFile", ""),
   ("secret", secret),
   ("webBasePath", "/"),
   ("timeLocation", "Asia/Shanghai")]

/-- The recognized external keys: the `json` tags of the aggregate's fields,
in field-declaration order. -/
def settingKeys : List String :=
  ["webListen", "webPort", "webCertFile", "webKeyFile", "webBasePath",
   "xrayTemplateConfig", "timeLocation"]

/-- The `setSetting` closure of `GetAllSetting` (source lines 221–258),
specialized to the modelled aggregate schema: locate the field whose `json`
tag equals `key`; if none exists the row is silently ignored (`return nil`);
an `int` field parses the value with `strconv.ParseInt(value, 10, 32)` and
propagates the parse error; a `string` field is assigned verbatim.  (The
`unknown field type` branch of the source is unreachable for this schema,
whose fields are all int/string.) -/
def setSettingField (x : AllSetting) (key value : String) : Except GoError AllSetting :=
  if key = "webListen" then .ok { x with webListen := value }
  else if key = "webPort" then
    match goParseInt32 value with
    | .error e => .error (.parse e)
    | .ok n => .ok { x with webPort := n }
  else if key = "webCertFile" then .ok { x with webCertFile := value }
  else if key = "webKeyFile" then .ok { x with webKeyFile := value }
  else if key = "webBasePath" then .ok { x with webBasePath := value }
  else if key = "xrayTemplateConfig" then .ok { x with xrayTemplateConfig := value }
  else if key = "timeLocation" then .ok { x with timeLocation := value }
  else .ok x

/-- The first loop of `GetAllSetting` (source lines 261–267): apply every
stored row in order, aborting at the first error. -/
def applyStoredRows (x : AllSetting) : List (String × String) → Except GoError AllSetting
  | [] => .ok x
  | r :: rest =>
    match setSettingField x r.1 r.2 with
    | .error e => .error e
    | .ok x' => applyStoredRows x' rest

/-- The second loop of `GetAllSetting` (source lines 269–277): for every
default-catalog entry whose key was not satisfied by a stored row
(`keyMap`), apply the default value, aborting at the first error. -/
def applyDefaults (x : AllSetting) (keyMap : List String) :
    List (String × String) → Except GoError AllSetting
  | [] => .ok x
  | p :: rest =>
    if p.1 ∈ keyMap then applyDefaults x keyMap rest
    else
      match setSettingField x p.1 p.2 with
      | .error e => .error e
      | .ok x' => applyDefaults x' keyMap rest

/-- Embeds `GetAllSetting` (source lines 209–280): fetch all rows, apply them onto a
zero aggregate, then overlay the defaults for the keys with no row
(`keyMap` is the set of stored row keys). -/
def GetAllSetting (tmpl secret : String) (db : DB) : Except GoError AllSetting :=
  match applyStoredRows {} db.rows with
  | .error e => .error e
  | .ok a => applyDefaults a (db.rows.map Prod.fst) (defaultValueMap tmpl secret)

/-- Embeds `getString` (source lines 334–346): the stored row's value if a row
exists; otherwise the `defaultValueMap` entry; otherwise the
`key not in defaultValueMap` configuration error. -/
def getString (tmpl secret : String) (db : DB) (key : String) : Except GoError String :=
  match findRow db.rows key with
  | some r => .ok r.2
  | none =>
    match (defaultValueMap tmpl secret).find? (fun p => p.1 == key) with
    | some p => .ok p.2
    | none => .error (.keyNotInDefaults key)

/-- Embeds `getInt` (source lines 352–358): `getString` then `strconv.Atoi`,
propagating either failure. -/
def getInt (tmpl secret : String) (db : DB) (key : String) : Except GoError Int :=
  match getString tmpl secret db key with
  | .error e => .error e
  | .ok s =>
    match goAtoi s with
    | .error pe => .error (.parse pe)
    | .ok n => .ok n

/-- Embeds `strings.HasPrefix(s, "/")`: the first character is `/`. -/
def goHasSlashAtStart (s : String) : Bool := s.data.head? == some '/'

/-- Embeds `strings.HasSuffix(s, "/")`: the last character is `/`. -/
def goHasSlashAtEnd (s : String) : Bool := s.data.getLast? == some '/'

/-- The normalization body of `GetBasePath` (source lines 404–409): prepend a
`/` when missing, then append a `/` when missing. -/
def normalizeBasePath (s : String) : String :=
  let s1 := if goHasSlashAtStart s then s else "/" ++ s
  if goHasSlashAtEnd s1 then s1 else s1 ++ "/"

/-- Embeds `GetBasePath` (source lines 399–411): `getString("webBasePath")`,
propagating its error, then slash-normalize. -/
def GetBasePath (tmpl secret : String) (db : DB) : Except GoError String :=
  match getString tmpl secret db "webBasePath" with
  | .error e => .error e
  | .ok bp => .ok (normalizeBasePath bp)

/-- Embeds `GetSecret` (source lines 388–397): `getString("secret")` (on error the
Go `secret` variable is its zero value `""`); if the obtained secret equals
`defaultValueMap["secret"]`, persist it via `saveSetting` (whose own error is
only logged); return the obtained bytes and the `getString` error.  The
result is `(store after the call, returned secret, returned error)`. -/
def GetSecret (tmpl secretDefault : String) (db : DB) : DB × String × Option GoError :=
  match getString tmpl secretDefault db "secret" with
  | .ok sec =>
    if sec = secretDefault then ((saveSetting db "secret" sec).1, sec, none)
    else (db, sec, none)
  | .error e =>
    if "" = secretDefault then ((saveSetting db "secret" "").1, "", some e)
    else (db, "", some e)

/-- Scalar value of one aggregate field, as seen by the reflective loops. -/
inductive FieldVal where
  | intVal (n : Int)
  | strVal (s : String)
deriving DecidableEq, Repr

/-- Embeds `fmt.Sprint(fieldV.Interface())` on a scalar field value: integers in
base-10 decimal, text verbatim. -/
def goSprint : FieldVal → String
  | .intVal n => goFormatInt n
  | .strVal s => s

/-- The field list `reflect_util.GetFields` sees on the modelled aggregate:
`(json tag, current typed value)` per field, in declaration order. -/
def allSettingFields (a : AllSetting) : List (String × FieldVal) :=
  [("webListen", .strVal a.webListen),
   ("webPort", .intVal a.webPort),
   ("webCertFile", .strVal a.webCertFile),
   ("webKeyFile", .strVal a.webKeyFile),
   ("webBasePath", .strVal a.webBasePath),
   ("xrayTemplateConfig", .strVal a.xrayTemplateConfig),
   ("timeLocation", .strVal a.timeLocation)]

/-- The rows the write loop of `UpdateAllSetting` emits (source lines
436–444): one `(json tag, fmt.Sprint(value))` pair per field. -/
def fieldPairs (a : AllSetting) : List (String × String) :=
  (allSettingFields a).map (fun f => (f.1, goSprint f.2))

/-- Modelled from the spec: `entity.AllSetting.CheckValid` is not part of the
provided sources.  Per spec §4.4/§6 it is the aggregate's internal cross-field
consistency validation — e.g. a valid port range and a well-formed
(slash-delimited) base path — returning an error on the first violated
constraint. -/
def CheckValid (a : AllSetting) : Option GoError :=
  if a.webPort < 1 ∨ 65535 < a.webPort then some (.validation "port")
  else if ¬(goHasSlashAtStart a.webBasePath ∧ goHasSlashAtEnd a.webBasePath) then
    some (.validation "web base path")
  else none

/-- Embeds `UpdateAllSetting` (source lines 427–452): `CheckValid` first, aborting
with its error and no writes; otherwise save every field's pair, collecting
all per-key errors; `common.Combine` of the collected errors is the returned
error (the empty list stands for `nil`).  The final `Bool` records whether the
fire-and-forget telemetry dispatch (`uploadAllSettingsToFirestore`) was
launched, which the source does exactly when no error was collected. -/
def UpdateAllSetting (db : DB) (a : AllSetting) : DB × List GoError × Bool :=
  match CheckValid a with
  | some e => (db, [e], false)
  | none =>
    let r := saveAll db (fieldPairs a)
    (r.1, r.2, r.2.isEmpty)

/-! ## Decimal parsing and formatting -/

theorem parseDigits_append (cs : List Char) (c : Char) :
    parseDigits (cs ++ [c]) = 10 * parseDigits cs + digitVal c := by
  simp [parseDigits, List.foldl_append]

theorem digitVal_toDigitChar (d : Nat) (h : d < 10) : digitVal (toDigitChar d) = d := by
  interval_cases d <;> decide

theorem isDigitChar_toDigitChar (d : Nat) (h : d < 10) : isDigitChar (toDigitChar d) = true := by
  interval_cases d <;> decide

theorem parseDigits_natDigitsAux {fuel n : Nat} (h : n < fuel) :
    parseDigits (natDigitsAux fuel n) = n := by
  induction fuel generalizing n with
  | zero => omega
  | succ fuel ih =>
    rw [natDigitsAux]
    split
    · simp [parseDigits, digitVal_toDigitChar n (by omega)]
    · rw [parseDigits_append, ih (by omega), digitVal_toDigitChar _ (Nat.mod_lt _ (by omega))]
      omega

theorem parseDigits_natDigits (n : Nat) : parseDigits (natDigits n) = n :=
  parseDigits_natDigitsAux (Nat.lt_succ_self n)

theorem natDigitsAux_all_digits {fuel n : Nat} (h : n < fuel) :
    (natDigitsAux fuel n).all isDigitChar = true := by
  induction fuel generalizing n with
  | zero => omega
  | succ fuel ih =>
    rw [natDigitsAux]
    split
    · simp [isDigitChar_toDigitChar n (by omega)]
    · rw [List.all_append]
      have ha := @ih (n / 10) (by omega)
      have hb := isDigitChar_toDigitChar (n % 10) (Nat.mod_lt _ (by omega))
      simp [ha, hb]

theorem natDigits_all_digits (n : Nat) : (natDigits n).all isDigitChar = true :=
  natDigitsAux_all_digits (Nat.lt_succ_self n)

theorem natDigits_ne_nil (n : Nat) : natDigits n ≠ [] := by
  rw [natDigits, natDigitsAux]
  split
  · simp
  · simp

theorem isDigitChar_ne_signs {c : Char} (h : isDigitChar c = true) : c ≠ '-' ∧ c ≠ '+' := by
  simp only [isDigitChar, Bool.and_eq_true, decide_eq_true_eq] at h
  constructor <;> rintro rfl <;> exact absurd h.1 (by decide)

theorem splitSign_of_digits {l : List Char} (hne : l ≠ []) (hd : l.all isDigitChar = true) :
    splitSign l = (false, l) := by
  cases l with
  | nil => exact absurd rfl hne
  | cons c cs =>
    have hc : isDigitChar c = true := by
      have := List.all_eq_true.mp hd c (List.mem_cons_self c cs)
      exact this
    obtain ⟨h1, h2⟩ := isDigitChar_ne_signs hc
    simp [splitSign, h1, h2]

theorem goParseInt_format {lo hi n : Int} (h1 : lo ≤ n) (h2 : n ≤ hi) :
    goParseInt lo hi (goFormatInt n) = .ok n := by
  unfold goFormatInt
  by_cases hn : n < 0
  · simp only [if_pos hn]
    have hdata : (String.mk ('-' :: natDigits n.natAbs)).data = '-' :: natDigits n.natAbs := rfl
    unfold goParseInt
    rw [hdata]
    have hsp : splitSign ('-' :: natDigits n.natAbs) = (true, natDigits n.natAbs) := by
      simp [splitSign]
    rw [hsp]
    simp only [List.isEmpty_iff]
    rw [if_neg (natDigits_ne_nil n.natAbs)]
    rw [if_pos (natDigits_all_digits n.natAbs)]
    rw [if_pos trivial]
    have hval : -((parseDigits (natDigits n.natAbs) : Nat) : Int) = n := by
      rw [parseDigits_natDigits]
      omega
    rw [hval, if_neg (by omega)]
  · simp only [if_neg hn]
    have hdata : (String.mk (natDigits n.toNat)).data = natDigits n.toNat := rfl
    unfold goParseInt
    rw [hdata]
    rw [splitSign_of_digits (natDigits_ne_nil n.toNat) (natDigits_all_digits n.toNat)]
    simp only [List.isEmpty_iff]
    rw [if_neg (natDigits_ne_nil n.toNat)]
    rw [if_pos (natDigits_all_digits n.toNat)]
    rw [if_neg (show ¬(false = true) by decide)]
    have hval : ((parseDigits (natDigits n.toNat) : Nat) : Int) = n := by
      rw [parseDigits_natDigits]
      omega
    rw [hval, if_neg (by omega)]

theorem goParseInt_narrow {lo hi lo' hi' n : Int} {s : String}
    (h : goParseInt lo hi s = .ok n) (hout : n < lo' ∨ hi' < n) :
    goParseInt lo' hi' s = .error .rangeErr := by
  unfold goParseInt at h ⊢
  by_cases he : (splitSign s.data).2.isEmpty
  · rw [if_pos he] at h
    exact absurd h (by simp)
  · rw [if_neg he] at h ⊢
    by_cases hdig : (splitSign s.data).2.all isDigitChar
    · rw [if_pos hdig] at h ⊢
      set v : Int := if (splitSign s.data).1 then -(parseDigits (splitSign s.data).2 : Int)
        else (parseDigits (splitSign s.data).2 : Int) with hv
      by_cases hr : v < lo ∨ hi < v
      · rw [if_pos hr] at h
        exact absurd h (by simp)
      · rw [if_neg hr] at h
        have hvn : v = n := by
          have := h
          simp only [Except.ok.injEq] at this
          exact this
        rw [if_pos (by omega)]
    · rw [if_neg hdig] at h
      exact absurd h (by simp)

theorem goParseInt32_format {n : Int} (h1 : -(2 ^ 31) ≤ n) (h2 : n ≤ 2 ^ 31 - 1) :
    goParseInt32 (goFormatInt n) = .ok n :=
  goParseInt_format h1 h2

/-! ## Row store lemmas -/

theorem findRow_cons_pos {r : String × String} {rest : List (String × String)} {k : String}
    (h : r.1 = k) : findRow (r :: rest) k = some r := by
  simp [findRow, List.find?_cons, h]

theorem findRow_cons_neg {r : String × String} {rest : List (String × String)} {k : String}
    (h : r.1 ≠ k) : findRow (r :: rest) k = findRow rest k := by
  simp [findRow, List.find?_cons, h]

theorem findRow_eq_none {rows : List (String × String)} {k : String} :
    findRow rows k = none ↔ k ∉ rows.map Prod.fst := by
  simp only [findRow, List.find?_eq_none, beq_iff_eq, List.mem_map]
  constructor
  · rintro h ⟨p, hp, rfl⟩
    exact h p hp rfl
  · intro h p hp hpk
    exact h ⟨p, hp, hpk⟩

theorem findRow_some {rows : List (String × String)} {k : String} {p : String × String}
    (h : findRow rows k = some p) : p ∈ rows ∧ p.1 = k := by
  refine ⟨List.mem_of_find?_eq_some h, ?_⟩
  have h2 := List.find?_some h
  exact beq_iff_eq.mp h2

theorem findRow_of_mem_nodup {rows : List (String × String)} {p : String × String}
    (hnd : (rows.map Prod.fst).Nodup) (hp : p ∈ rows) : findRow rows p.1 = some p := by
  induction rows with
  | nil => cases hp
  | cons r rest ih =>
    simp only [List.map_cons, List.nodup_cons] at hnd
    rcases List.mem_cons.mp hp with rfl | hmem
    · exact findRow_cons_pos rfl
    · have hne : r.1 ≠ p.1 := fun he => hnd.1 (he ▸ List.mem_map.mpr ⟨p, hmem, rfl⟩)
      rw [findRow_cons_neg hne]
      exact ih hnd.2 hmem

theorem findRow_append (l₁ l₂ : List (String × String)) (k : String) :
    findRow (l₁ ++ l₂) k =
      match findRow l₁ k with
      | some p => some p
      | none => findRow l₂ k := by
  induction l₁ with
  | nil => rfl
  | cons r rest ih =>
    by_cases hr : r.1 = k
    · rw [List.cons_append, findRow_cons_pos hr, findRow_cons_pos hr]
    · rw [List.cons_append, findRow_cons_neg hr, findRow_cons_neg hr, ih]

theorem findRow_split {rows : List (String × String)} {k : String} {p : String × String}
    (h : findRow rows k = some p) :
    ∃ l₁ l₂, rows = l₁ ++ p :: l₂ ∧ k ∉ l₁.map Prod.fst := by
  induction rows with
  | nil => simp [findRow] at h
  | cons r rest ih =>
    by_cases hr : r.1 = k
    · rw [findRow_cons_pos hr] at h
      simp only [Option.some.injEq] at h
      subst h
      exact ⟨[], rest, by simp, by simp⟩
    · rw [findRow_cons_neg hr] at h
      obtain ⟨l₁, l₂, heq, hnm⟩ := ih h
      refine ⟨r :: l₁, l₂, by simp [heq], ?_⟩
      simp only [List.map_cons, List.mem_cons]
      rintro (he | hm)
      · exact hr he.symm
      · exact hnm hm

theorem map_fst_updateRowFirst (rows : List (String × String)) (k v : String) :
    (updateRowFirst rows k v).map Prod.fst = rows.map Prod.fst := by
  induction rows with
  | nil => rfl
  | cons r rest ih =>
    by_cases hr : r.1 = k
    · simp [updateRowFirst, hr]
    · simp [updateRowFirst, hr, ih]

theorem findRow_updateRowFirst_self {rows : List (String × String)} {k : String}
    (hk : k ∈ rows.map Prod.fst) (v : String) :
    findRow (updateRowFirst rows k v) k = some (k, v) := by
  induction rows with
  | nil => cases hk
  | cons r rest ih =>
    by_cases hr : r.1 = k
    · simp only [updateRowFirst, if_pos hr]
      exact findRow_cons_pos rfl
    · simp only [updateRowFirst, if_neg hr]
      rw [findRow_cons_neg hr]
      have hk' : k ∈ rest.map Prod.fst := by
        simp only [List.map_cons, List.mem_cons] at hk
        rcases hk with he | hm
        · exact absurd he.symm hr
        · exact hm
      exact ih hk'

theorem findRow_updateRowFirst_other (rows : List (String × String)) (k v k' : String)
    (hne : k' ≠ k) :
    findRow (updateRowFirst rows k v) k' = findRow rows k' := by
  induction rows with
  | nil => rfl
  | cons r rest ih =>
    by_cases hr : r.1 = k
    · simp only [updateRowFirst, if_pos hr]
      rw [findRow_cons_neg (show (k, v).1 ≠ k' from Ne.symm hne)]
      rw [findRow_cons_neg (show r.1 ≠ k' from hr ▸ Ne.symm hne)]
    · simp only [updateRowFirst, if_neg hr]
      by_cases hr' : r.1 = k'
      · rw [findRow_cons_pos hr', findRow_cons_pos hr']
      · rw [findRow_cons_neg hr', findRow_cons_neg hr', ih]

theorem saveSetting_fail {db : DB} {k : String} (v : String) (h : k ∈ db.failKeys) :
    saveSetting db k v = (db, some (.storageWrite k)) := by
  simp [saveSetting, h]

theorem saveSetting_failKeys (db : DB) (k v : String) :
    (saveSetting db k v).1.failKeys = db.failKeys := by
  unfold saveSetting
  split
  · rfl
  · cases findRow db.rows k <;> rfl

theorem saveSetting_err_none {db : DB} {k : String} (v : String) (h : k ∉ db.failKeys) :
    (saveSetting db k v).2 = none := by
  unfold saveSetting
  rw [if_neg h]
  cases findRow db.rows k <;> rfl

theorem saveSetting_findRow_self {db : DB} {k : String} (v : String) (h : k ∉ db.failKeys) :
    findRow (saveSetting db k v).1.rows k = some (k, v) := by
  unfold saveSetting
  rw [if_neg h]
  cases hf : findRow db.rows k with
  | none =>
    simp only
    rw [findRow_append, hf]
    exact findRow_cons_pos rfl
  | some p =>
    simp only
    exact findRow_updateRowFirst_self (by
      obtain ⟨hmem, hk⟩ := findRow_some hf
      exact hk ▸ List.mem_map.mpr ⟨p, hmem, rfl⟩) v

theorem saveSetting_findRow_other (db : DB) (k v k' : String) (hne : k' ≠ k) :
    findRow (saveSetting db k v).1.rows k' = findRow db.rows k' := by
  unfold saveSetting
  split
  · rfl
  · cases hf : findRow db.rows k with
    | none =>
      simp only
      rw [findRow_append]
      cases hf' : findRow db.rows k' with
      | none =>
        rw [findRow_cons_neg (show (k, v).1 ≠ k' from Ne.symm hne)]
        rfl
      | some q => rfl
    | some p =>
      simp only
      exact findRow_updateRowFirst_other _ _ _ _ hne

theorem saveSetting_keys {db : DB} {k : String} (v : String) (h : k ∉ db.failKeys) :
    (saveSetting db k v).1.rows.map Prod.fst =
      if k ∈ db.rows.map Prod.fst then db.rows.map Prod.fst
      else db.rows.map Prod.fst ++ [k] := by
  unfold saveSetting
  rw [if_neg h]
  cases hf : findRow db.rows k with
  | none =>
    have hk : k ∉ db.rows.map Prod.fst := findRow_eq_none.mp hf
    simp [hk]
  | some p =>
    have hk : k ∈ db.rows.map Prod.fst := by
      obtain ⟨hmem, hpk⟩ := findRow_some hf
      exact hpk ▸ List.mem_map.mpr ⟨p, hmem, rfl⟩
    simp [hk, map_fst_updateRowFirst]

theorem saveAll_failKeys (pairs : List (String × String)) (db : DB) :
    (saveAll db pairs).1.failKeys = db.failKeys := by
  induction pairs generalizing db with
  | nil => rfl
  | cons p rest ih =>
    simp only [saveAll]
    rw [ih, saveSetting_failKeys]

theorem saveAll_errs (pairs : List (String × String)) (db : DB) :
    (saveAll db pairs).2 =
      (pairs.filter (fun p => p.1 ∈ db.failKeys)).map (fun p => GoError.storageWrite p.1) := by
  induction pairs generalizing db with
  | nil => rfl
  | cons p rest ih =>
    simp only [saveAll]
    by_cases hp : p.1 ∈ db.failKeys
    · rw [saveSetting_fail p.2 hp]
      simp only [List.filter_cons, if_pos (decide_eq_true hp)]
      rw [List.map_cons, ih db]
    · have he := saveSetting_err_none p.2 hp
      have hfk := saveSetting_failKeys db p.1 p.2
      rw [ih ((saveSetting db p.1 p.2).1), hfk]
      cases hsv : (saveSetting db p.1 p.2).2 with
      | none => simp [List.filter_cons, hp]
      | some e => rw [hsv] at he; cases he

theorem saveAll_findRow_other (pairs : List (String × String)) (db : DB) (k : String)
    (h : k ∉ pairs.map Prod.fst) :
    findRow (saveAll db pairs).1.rows k = findRow db.rows k := by
  induction pairs generalizing db with
  | nil => rfl
  | cons p rest ih =>
    simp only [List.map_cons, List.mem_cons, not_or] at h
    simp only [saveAll]
    rw [ih _ h.2, saveSetting_findRow_other _ _ _ _ h.1]

theorem saveAll_findRow_written (pairs : List (String × String)) (db : DB)
    (hnd : (pairs.map Prod.fst).Nodup) {p : String × String} (hp : p ∈ pairs)
    (hok : p.1 ∉ db.failKeys) :
    findRow (saveAll db pairs).1.rows p.1 = some p := by
  induction pairs generalizing db with
  | nil => cases hp
  | cons q rest ih =>
    simp only [List.map_cons, List.nodup_cons] at hnd
    simp only [saveAll]
    rcases List.mem_cons.mp hp with rfl | hmem
    · rw [saveAll_findRow_other rest _ p.1 hnd.1]
      rw [saveSetting_findRow_self p.2 hok]
    · have hok' : p.1 ∉ (saveSetting db q.1 q.2).1.failKeys := by
        rw [saveSetting_failKeys]
        exact hok
      exact ih _ hnd.2 hmem hok'

theorem saveAll_mem_keys (pairs : List (String × String)) (db : DB) (k : String) :
    k ∈ (saveAll db pairs).1.rows.map Prod.fst ↔
      (k ∈ db.rows.map Prod.fst ∨ (k ∈ pairs.map Prod.fst ∧ k ∉ db.failKeys)) := by
  induction pairs generalizing db with
  | nil => simp [saveAll]
  | cons p rest ih =>
    simp only [saveAll]
    rw [ih, saveSetting_failKeys]
    by_cases hp : p.1 ∈ db.failKeys
    · rw [saveSetting_fail p.2 hp]
      simp only [List.map_cons, List.mem_cons]
      constructor
      · rintro (h | h)
        · exact Or.inl h
        · exact Or.inr ⟨Or.inr h.1, h.2⟩
      · rintro (h | ⟨(rfl | hm), hf⟩)
        · exact Or.inl h
        · exact absurd hp hf
        · exact Or.inr ⟨hm, hf⟩
    · rw [saveSetting_keys p.2 hp]
      by_cases hm : p.1 ∈ db.rows.map Prod.fst
      · rw [if_pos hm]
        simp only [List.map_cons, List.mem_cons]
        constructor
        · rintro (h | h)
          · exact Or.inl h
          · exact Or.inr ⟨Or.inr h.1, h.2⟩
        · rintro (h | ⟨(rfl | hmm), hf⟩)
          · exact Or.inl h
          · exact Or.inl hm
          · exact Or.inr ⟨hmm, hf⟩
      · rw [if_neg hm]
        simp only [List.mem_append, List.map_cons, List.mem_cons]
        constructor
        · rintro ((h | hs) | h)
          · exact Or.inl h
          · have hkp : k = p.1 := by
              simpa using hs
            exact Or.inr ⟨Or.inl hkp, hkp ▸ hp⟩
          · exact Or.inr ⟨Or.inr h.1, h.2⟩
        · rintro (h | ⟨(rfl | hmm), hf⟩)
          · exact Or.inl (Or.inl h)
          · exact Or.inl (Or.inr (by simp))
          · exact Or.inr ⟨hmm, hf⟩

theorem saveAll_keys_nodup (pairs : List (String × String)) (db : DB)
    (hnd : (db.rows.map Prod.fst).Nodup) :
    ((saveAll db pairs).1.rows.map Prod.fst).Nodup := by
  induction pairs generalizing db with
  | nil => exact hnd
  | cons p rest ih =>
    simp only [saveAll]
    apply ih
    by_cases hp : p.1 ∈ db.failKeys
    · rw [saveSetting_fail p.2 hp]
      exact hnd
    · rw [saveSetting_keys p.2 hp]
      by_cases hm : p.1 ∈ db.rows.map Prod.fst
      · rw [if_pos hm]
        exact hnd
      · rw [if_neg hm]
        rw [List.nodup_append]
        exact ⟨hnd, List.nodup_singleton _, by simpa using hm⟩

/-! ## Aggregate mapper lemmas -/

theorem setSettingField_webListen (x : AllSetting) (v : String) :
    setSettingField x "webListen" v = .ok { x with webListen := v } := by
  simp [setSettingField]

theorem setSettingField_webPort (x : AllSetting) (v : String) :
    setSettingField x "webPort" v =
      match goParseInt32 v with
      | .error e => .error (.parse e)
      | .ok n => .ok { x with webPort := n } := by
  simp [setSettingField]

theorem setSettingField_webCertFile (x : AllSetting) (v : String) :
    setSettingField x "webCertFile" v = .ok { x with webCertFile := v } := by
  simp [setSettingField]

theorem setSettingField_webKeyFile (x : AllSetting) (v : String) :
    setSettingField x "webKeyFile" v = .ok { x with webKeyFile := v } := by
  simp [setSettingField]

theorem setSettingField_webBasePath (x : AllSetting) (v : String) :
    setSettingField x "webBasePath" v = .ok { x with webBasePath := v } := by
  simp [setSettingField]

theorem setSettingField_xrayTemplateConfig (x : AllSetting) (v : String) :
    setSettingField x "xrayTemplateConfig" v = .ok { x with xrayTemplateConfig := v } := by
  simp [setSettingField]

theorem setSettingField_timeLocation (x : AllSetting) (v : String) :
    setSettingField x "timeLocation" v = .ok { x with timeLocation := v } := by
  simp [setSettingField]

theorem setSettingField_skip {k : String} (h : k ∉ settingKeys) (x : AllSetting) (v : String) :
    setSettingField x k v = .ok x := by
  simp only [settingKeys, List.mem_cons, not_or, List.not_mem_nil, not_false_iff, and_true] at h
  obtain ⟨n1, n2, n3, n4, n5, n6, n7⟩ := h
  simp [setSettingField, n1, n2, n3, n4, n5, n6, n7]

theorem setSettingField_isOk {k v : String}
    (h : k ≠ "webPort" ∨ ∃ n, goParseInt32 v = .ok n) (x : AllSetting) :
    ∃ x', setSettingField x k v = .ok x' := by
  unfold setSettingField
  split_ifs with h1 h2 h3 h4 h5 h6 h7
  · exact ⟨_, rfl⟩
  · rcases h with hne | ⟨n, hn⟩
    · exact absurd h2 hne
    · rw [hn]
      exact ⟨_, rfl⟩
  · exact ⟨_, rfl⟩
  · exact ⟨_, rfl⟩
  · exact ⟨_, rfl⟩
  · exact ⟨_, rfl⟩
  · exact ⟨_, rfl⟩
  · exact ⟨_, rfl⟩

theorem setSettingField_error {x : AllSetting} {k v : String} {e : GoError}
    (h : setSettingField x k v = .error e) :
    k = "webPort" ∧ ∃ pe, e = .parse pe ∧ goParseInt32 v = .error pe := by
  unfold setSettingField at h
  split_ifs at h with h1 h2 h3 h4 h5 h6 h7 <;>
    first
    | exact Except.noConfusion h
    | · refine ⟨h2, ?_⟩
        cases hp : goParseInt32 v with
        | error pe =>
          rw [hp] at h
          simp only [Except.error.injEq] at h
          exact ⟨pe, h.symm, rfl⟩
        | ok n =>
          rw [hp] at h
          exact Except.noConfusion h

theorem setSettingField_frame_webListen {x x' : AllSetting} {k v : String}
    (hk : k ≠ "webListen") (h : setSettingField x k v = .ok x') :
    x'.webListen = x.webListen := by
  unfold setSettingField at h
  split_ifs at h <;>
    first
    | exact absurd (by assumption) hk
    | (cases hp : goParseInt32 v with
       | error e => rw [hp] at h; exact Except.noConfusion h
       | ok n => rw [hp] at h; simp only [Except.ok.injEq] at h; subst h; rfl)
    | (simp only [Except.ok.injEq] at h; subst h; rfl)

theorem setSettingField_frame_webPort {x x' : AllSetting} {k v : String}
    (hk : k ≠ "webPort") (h : setSettingField x k v = .ok x') :
    x'.webPort = x.webPort := by
  unfold setSettingField at h
  split_ifs at h <;>
    first
    | exact absurd (by assumption) hk
    | (simp only [Except.ok.injEq] at h; subst h; rfl)

theorem setSettingField_frame_webCertFile {x x' : AllSetting} {k v : String}
    (hk : k ≠ "webCertFile") (h : setSettingField x k v = .ok x') :
    x'.webCertFile = x.webCertFile := by
  unfold setSettingField at h
  split_ifs at h <;>
    first
    | exact absurd (by assumption) hk
    | (cases hp : goParseInt32 v with
       | error e => rw [hp] at h; exact Except.noConfusion h
       | ok n => rw [hp] at h; simp only [Except.ok.injEq] at h; subst h; rfl)
    | (simp only [Except.ok.injEq] at h; subst h; rfl)

theorem setSettingField_frame_webKeyFile {x x' : AllSetting} {k v : String}
    (hk : k ≠ "webKeyFile") (h : setSettingField x k v = .ok x') :
    x'.webKeyFile = x.webKeyFile := by
  unfold setSettingField at h
  split_ifs at h <;>
    first
    | exact absurd (by assumption) hk
    | (cases hp : goParseInt32 v with
       | error e => rw [hp] at h; exact Except.noConfusion h
       | ok n => rw [hp] at h; simp only [Except.ok.injEq] at h; subst h; rfl)
    | (simp only [Except.ok.injEq] at h; subst h; rfl)

theorem setSettingField_frame_webBasePath {x x' : AllSetting} {k v : String}
    (hk : k ≠ "webBasePath") (h : setSettingField x k v = .ok x') :
    x'.webBasePath = x.webBasePath := by
  unfold setSettingField at h
  split_ifs at h <;>
    first
    | exact absurd (by assumption) hk
    | (cases hp : goParseInt32 v with
       | error e => rw [hp] at h; exact Except.noConfusion h
       | ok n => rw [hp] at h; simp only [Except.ok.injEq] at h; subst h; rfl)
    | (simp only [Except.ok.injEq] at h; subst h; rfl)

theorem setSettingField_frame_xrayTemplateConfig {x x' : AllSetting} {k v : String}
    (hk : k ≠ "xrayTemplateConfig") (h : setSettingField x k v = .ok x') :
    x'.xrayTemplateConfig = x.xrayTemplateConfig := by
  unfold setSettingField at h
  split_ifs at h <;>
    first
    | exact absurd (by assumption) hk
    | (cases hp : goParseInt32 v with
       | error e => rw [hp] at h; exact Except.noConfusion h
       | ok n => rw [hp] at h; simp only [Except.ok.injEq] at h; subst h; rfl)
    | (simp only [Except.ok.injEq] at h; subst h; rfl)

theorem setSettingField_frame_timeLocation {x x' : AllSetting} {k v : String}
    (hk : k ≠ "timeLocation") (h : setSettingField x k v = .ok x') :
    x'.timeLocation = x.timeLocation := by
  unfold setSettingField at h
  split_ifs at h <;>
    first
    | exact absurd (by assumption) hk
    | (cases hp : goParseInt32 v with
       | error e => rw [hp] at h; exact Except.noConfusion h
       | ok n => rw [hp] at h; simp only [Except.ok.injEq] at h; subst h; rfl)
    | (simp only [Except.ok.injEq] at h; subst h; rfl)

/-! ## Read path fold lemmas -/

theorem applyStoredRows_append (x : AllSetting) (l₁ l₂ : List (String × String)) :
    applyStoredRows x (l₁ ++ l₂) =
      match applyStoredRows x l₁ with
      | .error e => .error e
      | .ok y => applyStoredRows y l₂ := by
  induction l₁ generalizing x with
  | nil => rfl
  | cons r rest ih =>
    simp only [List.cons_append, applyStoredRows]
    cases setSettingField x r.1 r.2 with
    | error e => rfl
    | ok x' => exact ih x'

theorem applyStoredRows_frame {α : Type} (f : AllSetting → α) (k : String)
    (hf : ∀ (x : AllSetting) (k' v : String) (x' : AllSetting), k' ≠ k →
      setSettingField x k' v = .ok x' → f x' = f x)
    (rows : List (String × String)) :
    ∀ (x y : AllSetting), k ∉ rows.map Prod.fst →
      applyStoredRows x rows = .ok y → f y = f x := by
  induction rows with
  | nil =>
    intro x y _ h
    simp only [applyStoredRows, Except.ok.injEq] at h
    subst h
    rfl
  | cons r rest ih =>
    intro x y hk h
    simp only [List.map_cons, List.mem_cons, not_or] at hk
    simp only [applyStoredRows] at h
    cases hs : setSettingField x r.1 r.2 with
    | error e => rw [hs] at h; exact Except.noConfusion h
    | ok x' =>
      rw [hs] at h
      rw [ih x' y hk.2 h]
      exact hf x r.1 r.2 x' (fun he => hk.1 he.symm) hs

theorem applyStoredRows_ok {rows : List (String × String)}
    (h : ∀ p ∈ rows, p.1 ≠ "webPort" ∨ ∃ n, goParseInt32 p.2 = .ok n) :
    ∀ x, ∃ y, applyStoredRows x rows = .ok y := by
  induction rows with
  | nil => exact fun x => ⟨x, rfl⟩
  | cons r rest ih =>
    intro x
    obtain ⟨x', hx'⟩ := setSettingField_isOk (h r (List.mem_cons_self r rest)) x
    obtain ⟨y, hy⟩ := ih (fun p hp => h p (List.mem_cons_of_mem r hp)) x'
    refine ⟨y, ?_⟩
    simp only [applyStoredRows, hx']
    exact hy

theorem applyStoredRows_value {α : Type} (f : AllSetting → α) (k v : String) (gval : α)
    (hf : ∀ (x : AllSetting) (k' v' : String) (x' : AllSetting), k' ≠ k →
      setSettingField x k' v' = .ok x' → f x' = f x)
    (hres : ∀ (x x' : AllSetting), setSettingField x k v = .ok x' → f x' = gval)
    {l₁ l₂ : List (String × String)} {x y : AllSetting}
    (h1 : k ∉ l₁.map Prod.fst) (h2 : k ∉ l₂.map Prod.fst)
    (h : applyStoredRows x (l₁ ++ (k, v) :: l₂) = .ok y) :
    f y = gval := by
  rw [applyStoredRows_append] at h
  cases ha : applyStoredRows x l₁ with
  | error e => rw [ha] at h; exact Except.noConfusion h
  | ok z =>
    rw [ha] at h
    simp only [applyStoredRows] at h
    cases hs : setSettingField z k v with
    | error e => rw [hs] at h; exact Except.noConfusion h
    | ok z' =>
      rw [hs] at h
      rw [applyStoredRows_frame f k hf l₂ z' y h2 h]
      exact hres z z' hs

theorem applyDefaults_append (x : AllSetting) (km : List String)
    (l₁ l₂ : List (String × String)) :
    applyDefaults x km (l₁ ++ l₂) =
      match applyDefaults x km l₁ with
      | .error e => .error e
      | .ok y => applyDefaults y km l₂ := by
  induction l₁ generalizing x with
  | nil => rfl
  | cons p rest ih =>
    simp only [List.cons_append, applyDefaults]
    by_cases hm : p.1 ∈ km
    · rw [if_pos hm, if_pos hm]
      exact ih x
    · rw [if_neg hm, if_neg hm]
      cases setSettingField x p.1 p.2 with
      | error e => rfl
      | ok x' => exact ih x'

theorem applyDefaults_frame {α : Type} (f : AllSetting → α) (k : String)
    (hf : ∀ (x : AllSetting) (k' v : String) (x' : AllSetting), k' ≠ k →
      setSettingField x k' v = .ok x' → f x' = f x)
    (ds : List (String × String)) :
    ∀ (km : List String) (x y : AllSetting),
      (k ∈ km ∨ k ∉ ds.map Prod.fst) →
      applyDefaults x km ds = .ok y → f y = f x := by
  induction ds with
  | nil =>
    intro km x y _ h
    simp only [applyDefaults, Except.ok.injEq] at h
    subst h
    rfl
  | cons p rest ih =>
    intro km x y hk h
    have hk' : k ∈ km ∨ k ∉ rest.map Prod.fst := by
      rcases hk with h1 | h1
      · exact Or.inl h1
      · simp only [List.map_cons, List.mem_cons, not_or] at h1
        exact Or.inr h1.2
    simp only [applyDefaults] at h
    by_cases hm : p.1 ∈ km
    · rw [if_pos hm] at h
      exact ih km x y hk' h
    · rw [if_neg hm] at h
      have hne : p.1 ≠ k := by
        rcases hk with h1 | h1
        · exact fun he => hm (he ▸ h1)
        · simp only [List.map_cons, List.mem_cons, not_or] at h1
          exact fun he => h1.1 he.symm
      cases hs : setSettingField x p.1 p.2 with
      | error e => rw [hs] at h; exact Except.noConfusion h
      | ok x' =>
        rw [hs] at h
        rw [ih km x' y hk' h]
        exact hf x p.1 p.2 x' hne hs

theorem applyDefaults_ok {ds : List (String × String)} {km : List String}
    (h : ∀ p ∈ ds, p.1 ∉ km → p.1 ≠ "webPort" ∨ ∃ n, goParseInt32 p.2 = .ok n) :
    ∀ x, ∃ y, applyDefaults x km ds = .ok y := by
  induction ds with
  | nil => exact fun x => ⟨x, rfl⟩
  | cons p rest ih =>
    intro x
    by_cases hm : p.1 ∈ km
    · obtain ⟨y, hy⟩ := ih (fun q hq => h q (List.mem_cons_of_mem p hq)) x
      refine ⟨y, ?_⟩
      simp only [applyDefaults, if_pos hm]
      exact hy
    · obtain ⟨x', hx'⟩ :=
        setSettingField_isOk (h p (List.mem_cons_self p rest) hm) x
      obtain ⟨y, hy⟩ := ih (fun q hq => h q (List.mem_cons_of_mem p hq)) x'
      refine ⟨y, ?_⟩
      simp only [applyDefaults, if_neg hm, hx']
      exact hy

theorem applyDefaults_value {α : Type} (f : AllSetting → α) (k dval : String) (gval : α)
    (hf : ∀ (x : AllSetting) (k' v : String) (x' : AllSetting), k' ≠ k →
      setSettingField x k' v = .ok x' → f x' = f x)
    (hres : ∀ (x x' : AllSetting), setSettingField x k dval = .ok x' → f x' = gval)
    {l₁ l₂ : List (String × String)} {km : List String} {x y : AllSetting}
    (h2 : k ∉ l₂.map Prod.fst) (hkm : k ∉ km)
    (h : applyDefaults x km (l₁ ++ (k, dval) :: l₂) = .ok y) :
    f y = gval := by
  rw [applyDefaults_append] at h
  cases ha : applyDefaults x km l₁ with
  | error e => rw [ha] at h; exact Except.noConfusion h
  | ok z =>
    rw [ha] at h
    simp only [applyDefaults, if_neg hkm] at h
    cases hs : setSettingField z k dval with
    | error e => rw [hs] at h; exact Except.noConfusion h
    | ok z' =>
      rw [hs] at h
      rw [applyDefaults_frame f k hf l₂ km z' y (Or.inr h2) h]
      exact hres z z' hs

theorem nodup_split_right {l₁ l₂ : List (String × String)} {p : String × String}
    (hnd : ((l₁ ++ p :: l₂).map Prod.fst).Nodup) : p.1 ∉ l₂.map Prod.fst := by
  rw [List.map_append] at hnd
  have h2 := (List.nodup_append.mp hnd).2.1
  rw [List.map_cons, List.nodup_cons] at h2
  exact h2.1

theorem allSetting_eq {x y : AllSetting}
    (h1 : x.webListen = y.webListen) (h2 : x.webPort = y.webPort)
    (h3 : x.webCertFile = y.webCertFile) (h4 : x.webKeyFile = y.webKeyFile)
    (h5 : x.webBasePath = y.webBasePath) (h6 : x.xrayTemplateConfig = y.xrayTemplateConfig)
    (h7 : x.timeLocation = y.timeLocation) : x = y := by
  cases x
  cases y
  simp_all

theorem checkValid_none_port {a : AllSetting} (h : CheckValid a = none) :
    1 ≤ a.webPort ∧ a.webPort ≤ 65535 := by
  by_cases hp : a.webPort < 1 ∨ 65535 < a.webPort
  · rw [CheckValid, if_pos hp] at h
    exact absurd h (by simp)
  · omega

/-! ## Base path and secret helpers -/

theorem goHasSlashAtStart_append {s : String} (t : String)
    (h : goHasSlashAtStart s = true) : goHasSlashAtStart (s ++ t) = true := by
  unfold goHasSlashAtStart at h ⊢
  rw [String.data_append]
  cases hd : s.data with
  | nil => rw [hd] at h; simp at h
  | cons c cs =>
    rw [hd] at h
    simpa using h

theorem goHasSlashAtStart_slash_append (s : String) :
    goHasSlashAtStart ("/" ++ s) = true := by
  unfold goHasSlashAtStart
  rw [String.data_append]
  rfl

theorem goHasSlashAtEnd_append_slash (s : String) :
    goHasSlashAtEnd (s ++ "/") = true := by
  unfold goHasSlashAtEnd
  rw [String.data_append]
  rw [show ("/" : String).data = ['/'] from rfl, List.getLast?_concat]
  rfl

theorem normalizeBasePath_slashes (s : String) :
    goHasSlashAtStart (normalizeBasePath s) = true
    ∧ goHasSlashAtEnd (normalizeBasePath s) = true := by
  unfold normalizeBasePath
  by_cases h1 : goHasSlashAtStart s = true
  · rw [if_pos h1]
    by_cases h2 : goHasSlashAtEnd s = true
    · rw [if_pos h2]
      exact ⟨h1, h2⟩
    · rw [if_neg h2]
      exact ⟨goHasSlashAtStart_append "/" h1, goHasSlashAtEnd_append_slash s⟩
  · rw [if_neg h1]
    have hstart := goHasSlashAtStart_slash_append s
    by_cases h2 : goHasSlashAtEnd ("/" ++ s) = true
    · rw [if_pos h2]
      exact ⟨hstart, h2⟩
    · rw [if_neg h2]
      exact ⟨goHasSlashAtStart_append "/" hstart, goHasSlashAtEnd_append_slash _⟩

theorem getString_secret_ok (tmpl sd : String) (db : DB) :
    getString tmpl sd db "secret" =
      .ok (match findRow db.rows "secret" with
           | some r => r.2
           | none => sd) := by
  unfold getString
  cases hf : findRow db.rows "secret" with
  | some r => rfl
  | none => rfl

/-! ## Claim theorems -/

/-- C3: for every aggregate whose `CheckValid` validation fails,
`UpdateAllSetting` returns that error and performs zero storage mutations:
the store after the call equals the store before it, and no telemetry is
dispatched. -/
theorem c3_validation_failure_no_mutation (db : DB) (a : AllSetting) (e : GoError)
    (h : CheckValid a = some e) :
    UpdateAllSetting db a = (db, [e], false) := by
  simp [UpdateAllSetting, h]

theorem c3_witness :
    UpdateAllSetting ⟨[("webPort", "1")], []⟩ { webPort := 0 } =
      (⟨[("webPort", "1")], []⟩, [.validation "port"], false) :=
  c3_validation_failure_no_mutation _ _ _ (by decide)

/-- C6: `getString` returns the stored row's value when a row exists, the
Default Catalog entry when no row exists, and the `key not in defaultValueMap`
configuration error when neither exists; `getInt` applies base-10 parsing
(`strconv.Atoi`) to the string so obtained and propagates every failure. -/
theorem c6_scalar_accessors (tmpl secret : String) (db : DB) (key : String) :
    (∀ r, findRow db.rows key = some r → getString tmpl secret db key = .ok r.2)
    ∧ (findRow db.rows key = none →
        ∀ p, (defaultValueMap tmpl secret).find? (fun q => q.1 == key) = some p →
          getString tmpl secret db key = .ok p.2)
    ∧ (findRow db.rows key = none →
        (defaultValueMap tmpl secret).find? (fun q => q.1 == key) = none →
          getString tmpl secret db key = .error (.keyNotInDefaults key))
    ∧ (∀ e, getString tmpl secret db key = .error e →
        getInt tmpl secret db key = .error e)
    ∧ (∀ s, getString tmpl secret db key = .ok s →
        (∀ pe, goAtoi s = .error pe → getInt tmpl secret db key = .error (.parse pe))
        ∧ (∀ n, goAtoi s = .ok n → getInt tmpl secret db key = .ok n)) := by
  refine ⟨?_, ?_, ?_, ?_, ?_⟩
  · intro r hr
    simp [getString, hr]
  · intro hn p hp
    simp [getString, hn, hp]
  · intro hn hp
    simp [getString, hn, hp]
  · intro e he
    simp [getInt, he]
  · intro s hs
    constructor
    · intro pe hpe
      simp [getInt, hs, hpe]
    · intro n hn
      simp [getInt, hs, hn]

theorem c6_witness :
    getString "T" "S" ⟨[("webPort", "7"), ("bad", "zz")], []⟩ "webPort" = .ok "7"
    ∧ getInt "T" "S" ⟨[("webPort", "7"), ("bad", "zz")], []⟩ "webPort" = .ok 7
    ∧ getString "T" "S" ⟨[("webPort", "7"), ("bad", "zz")], []⟩ "webListen" = .ok ""
    ∧ getString "T" "S" ⟨[("webPort", "7"), ("bad", "zz")], []⟩ "nope" =
        .error (.keyNotInDefaults "nope")
    ∧ getInt "T" "S" ⟨[("webPort", "7"), ("bad", "zz")], []⟩ "bad" =
        .error (.parse .syntaxErr) := by
  have h := c6_scalar_accessors "T" "S" ⟨[("webPort", "7"), ("bad", "zz")], []⟩
  have hbad := c6_scalar_accessors "T" "S" ⟨[("webPort", "7"), ("bad", "zz")], []⟩ "bad"
  refine ⟨(h "webPort").1 _ rfl, ?_, (h "webListen").2.1 rfl _ rfl, ?_, ?_⟩
  · exact (((h "webPort").2.2.2.2 "7") ((h "webPort").1 _ rfl)).2 7 rfl
  · exact (h "nope").2.2.1 rfl rfl
  · exact ((hbad.2.2.2.2 "zz") (hbad.1 _ rfl)).1 .syntaxErr rfl

/-- C7: the value returned by `GetBasePath` always starts and ends with `/`
(whatever string was stored), and the normalization maps `"api"` to
`"/api/"`, leaves `"/x/"` unchanged and maps `""` to `"/"`. -/
theorem c7_base_path_normalized (tmpl secret : String) (db : DB) (s : String)
    (h : getString tmpl secret db "webBasePath" = .ok s) :
    GetBasePath tmpl secret db = .ok (normalizeBasePath s)
    ∧ goHasSlashAtStart (normalizeBasePath s) = true
    ∧ goHasSlashAtEnd (normalizeBasePath s) = true
    ∧ normalizeBasePath "api" = "/api/"
    ∧ normalizeBasePath "/x/" = "/x/"
    ∧ normalizeBasePath "" = "/" := by
  refine ⟨?_, (normalizeBasePath_slashes s).1, (normalizeBasePath_slashes s).2,
    by decide, by decide, by decide⟩
  simp [GetBasePath, h]

theorem c7_witness :
    GetBasePath "T" "S" ⟨[("webBasePath", "api")], []⟩ = .ok "/api/"
    ∧ goHasSlashAtStart (normalizeBasePath "api") = true
    ∧ goHasSlashAtEnd (normalizeBasePath "api") = true := by
  have h := c7_base_path_normalized "T" "S" ⟨[("webBasePath", "api")], []⟩ "api" rfl
  exact ⟨by rw [h.1]; rfl, h.2.1, h.2.2.1⟩

/-- C8: the write loop of `UpdateAllSetting` emits exactly one `(key, value)`
pair per aggregate field; every declared external key of the modelled
aggregate is non-empty, so the emitted pairs are exactly those of the fields
with a non-empty key (and a field with an empty key would contribute no pair
to that filtered set); integer values are serialized in base-10 decimal
(parsing back to the same value) and text values verbatim. -/
theorem c8_flatten_rows (a : AllSetting) :
    fieldPairs a =
      ((allSettingFields a).filter (fun f => f.1 != "")).map (fun f => (f.1, goSprint f.2))
    ∧ (∀ f ∈ allSettingFields a, f.1 ≠ "")
    ∧ (fieldPairs a).length = (allSettingFields a).length
    ∧ ((fieldPairs a).map Prod.fst).Nodup
    ∧ (∀ s, goSprint (.strVal s) = s)
    ∧ (∀ n : Int, goSprint (.intVal n) = goFormatInt n)
    ∧ (∀ n : Int, -(2 ^ 31) ≤ n → n ≤ 2 ^ 31 - 1 →
        goParseInt32 (goFormatInt n) = .ok n) := by
  refine ⟨?_, ?_, rfl, ?_, fun s => rfl, fun n => rfl,
    fun n h1 h2 => goParseInt32_format h1 h2⟩
  · simp [fieldPairs, allSettingFields]
  · intro f hf
    simp only [allSettingFields, List.mem_cons, List.not_mem_nil, or_false] at hf
    rcases hf with rfl | rfl | rfl | rfl | rfl | rfl | rfl <;> simp
  · rw [show (fieldPairs a).map Prod.fst = settingKeys from rfl]
    decide

theorem c8_witness :
    goParseInt32 (goFormatInt 8080) = .ok 8080
    ∧ fieldPairs { webPort := 8080, webBasePath := "/p/" } =
        [("webListen", ""), ("webPort", "8080"), ("webCertFile", ""), ("webKeyFile", ""),
         ("webBasePath", "/p/"), ("xrayTemplateConfig", ""), ("timeLocation", "")] := by
  have h := c8_flatten_rows { webPort := 8080, webBasePath := "/p/" }
  exact ⟨h.2.2.2.2.2.2 8080 (by decide) (by decide), by decide⟩

/-- C9: when the secret obtained by `GetSecret` equals the process-generated
default secret, `GetSecret` persists that value as an explicit row for the
`secret` key (so a row then exists holding it); in either case the returned
secret equals the obtained value and no error is returned. -/
theorem c9_secret_pinned (tmpl sd : String) (db : DB) (hfail : "secret" ∉ db.failKeys) :
    ∃ s, getString tmpl sd db "secret" = .ok s
      ∧ (GetSecret tmpl sd db).2.1 = s
      ∧ (GetSecret tmpl sd db).2.2 = none
      ∧ (s = sd → findRow (GetSecret tmpl sd db).1.rows "secret" = some ("secret", s))
      ∧ (s ≠ sd → (GetSecret tmpl sd db).1 = db) := by
  have hs := getString_secret_ok tmpl sd db
  have hG : GetSecret tmpl sd db =
      if (match findRow db.rows "secret" with | some r => r.2 | none => sd) = sd then
        ((saveSetting db "secret"
            (match findRow db.rows "secret" with | some r => r.2 | none => sd)).1,
          (match findRow db.rows "secret" with | some r => r.2 | none => sd), none)
      else (db, (match findRow db.rows "secret" with | some r => r.2 | none => sd), none) := by
    simp only [GetSecret, hs]
  refine ⟨_, hs, ?_, ?_, ?_, ?_⟩
  · rw [hG]
    split <;> rfl
  · rw [hG]
    split <;> rfl
  · intro he
    rw [hG, if_pos he, he]
    exact saveSetting_findRow_self sd hfail
  · intro he
    rw [hG, if_neg he]

theorem c9_witness :
    (GetSecret "T" "S" ⟨[], []⟩).2.1 = "S"
    ∧ (GetSecret "T" "S" ⟨[], []⟩).2.2 = none
    ∧ findRow (GetSecret "T" "S" ⟨[], []⟩).1.rows "secret" = some ("secret", "S") := by
  obtain ⟨s, hs, h1, h2, h3, h4⟩ := c9_secret_pinned "T" "S" ⟨[], []⟩ (by decide)
  have hsv : s = "S" := by
    rw [getString_secret_ok] at hs
    simpa using hs.symm
  subst hsv
  exact ⟨h1, h2, h3 rfl⟩

/-! ## Read path characterization helpers -/

theorem findRow_some_mem_keys {rows : List (String × String)} {k : String}
    {p : String × String} (h : findRow rows k = some p) : k ∈ rows.map Prod.fst := by
  obtain ⟨hm, hk⟩ := findRow_some h
  exact hk ▸ List.mem_map.mpr ⟨p, hm, rfl⟩

theorem getAll_webPort_row_error {tmpl secret : String} {db : DB} {v : String}
    {pe : ParseIntError}
    (hnd : (db.rows.map Prod.fst).Nodup)
    (hmem : ("webPort", v) ∈ db.rows)
    (hbad : goParseInt32 v = .error pe) :
    GetAllSetting tmpl secret db = .error (.parse pe) := by
  have hfind : findRow db.rows "webPort" = some ("webPort", v) :=
    findRow_of_mem_nodup hnd hmem
  obtain ⟨l₁, l₂, heq, hl₁⟩ := findRow_split hfind
  have hsafe : ∀ p ∈ l₁, p.1 ≠ "webPort" ∨ ∃ n, goParseInt32 p.2 = .ok n := by
    intro p hp
    exact Or.inl (fun he => hl₁ (he ▸ List.mem_map.mpr ⟨p, hp, rfl⟩))
  obtain ⟨y, hy⟩ := applyStoredRows_ok hsafe ({} : AllSetting)
  have hrows : applyStoredRows {} db.rows = .error (.parse pe) := by
    rw [heq, applyStoredRows_append, hy]
    show applyStoredRows y (("webPort", v) :: l₂) = .error (.parse pe)
    simp only [applyStoredRows]
    rw [setSettingField_webPort, hbad]
  unfold GetAllSetting
  rw [hrows]

theorem getAll_field_from_row {α : Type} (f : AllSetting → α) (k v : String) (gval : α)
    (tmpl secret : String)
    (hf : ∀ (x : AllSetting) (k' v' : String) (x' : AllSetting), k' ≠ k →
      setSettingField x k' v' = .ok x' → f x' = f x)
    (hres : ∀ (x x' : AllSetting), setSettingField x k v = .ok x' → f x' = gval)
    {db : DB} {y z : AllSetting}
    (hnd : (db.rows.map Prod.fst).Nodup)
    (hfind : findRow db.rows k = some (k, v))
    (hy : applyStoredRows {} db.rows = .ok y)
    (hz : applyDefaults y (db.rows.map Prod.fst) (defaultValueMap tmpl secret) = .ok z) :
    f z = gval := by
  obtain ⟨l₁, l₂, heq, hl₁⟩ := findRow_split hfind
  have hnd2 := hnd
  rw [heq] at hnd2
  have hl₂ : k ∉ l₂.map Prod.fst := nodup_split_right hnd2
  rw [heq] at hy
  have hkm : k ∈ db.rows.map Prod.fst := findRow_some_mem_keys hfind
  have hyv : f y = gval := applyStoredRows_value f k v gval hf hres hl₁ hl₂ hy
  rw [applyDefaults_frame f k hf (defaultValueMap tmpl secret)
    (db.rows.map Prod.fst) y z (Or.inl hkm) hz]
  exact hyv

theorem fieldPairs_map_fst (a : AllSetting) :
    (fieldPairs a).map Prod.fst = settingKeys := rfl

theorem fieldPairs_keys_nodup (a : AllSetting) :
    ((fieldPairs a).map Prod.fst).Nodup := by
  rw [fieldPairs_map_fst]
  decide

/-- C4: a stored row for an integer-typed field (`webPort`) whose value does
not parse as a base-10 integer makes `GetAllSetting` fail with that parse
error: no aggregate is returned, no default fallback and no silent zero. -/
theorem c4_parse_error_aborts_read (tmpl secret : String) (db : DB) (v : String)
    (pe : ParseIntError)
    (hnd : (db.rows.map Prod.fst).Nodup)
    (hmem : ("webPort", v) ∈ db.rows)
    (hbad : goParseInt32 v = .error pe) :
    GetAllSetting tmpl secret db = .error (.parse pe) :=
  getAll_webPort_row_error hnd hmem hbad

theorem c4_witness :
    GetAllSetting "T" "S" ⟨[("webPort", "abc")], []⟩ = .error (.parse .syntaxErr) :=
  c4_parse_error_aborts_read "T" "S" _ "abc" .syntaxErr (by decide) (by decide) rfl

/-- C10: `GetAllSetting` parses integer fields with `strconv.ParseInt(v, 10, 32)`,
so a stored `webPort` value that is a numerically valid base-10 integer (it
parses under the 64-bit `strconv.Atoi`) but lies outside the int32 range makes
the whole read fail with a range error instead of being accepted. -/
theorem c10_int32_bitsize (tmpl secret : String) (db : DB) (v : String) (n : Int)
    (hnd : (db.rows.map Prod.fst).Nodup)
    (hmem : ("webPort", v) ∈ db.rows)
    (h64 : goAtoi v = .ok n)
    (hout : n < -(2 ^ 31) ∨ 2 ^ 31 - 1 < n) :
    GetAllSetting tmpl secret db = .error (.parse .rangeErr) :=
  getAll_webPort_row_error hnd hmem (goParseInt_narrow h64 hout)

theorem c10_witness :
    GetAllSetting "T" "S" ⟨[("webPort", "2147483648")], []⟩ =
      .error (.parse .rangeErr) :=
  c10_int32_bitsize "T" "S" _ "2147483648" 2147483648 (by decide) (by decide) rfl
    (by norm_num)

/-- C2: every Default Catalog key with no stored row resolves to the
catalog's default in the aggregate returned by `GetAllSetting`; in
particular, on an empty store every recognized field equals its compiled-in
default (the port field equals the default port 54321). -/
theorem c2_defaults_fill (tmpl secret : String) (db : DB) (a : AllSetting)
    (h : GetAllSetting tmpl secret db = .ok a) :
    ("webListen" ∉ db.rows.map Prod.fst → a.webListen = "")
    ∧ ("webPort" ∉ db.rows.map Prod.fst → a.webPort = 54321)
    ∧ ("webCertFile" ∉ db.rows.map Prod.fst → a.webCertFile = "")
    ∧ ("webKeyFile" ∉ db.rows.map Prod.fst → a.webKeyFile = "")
    ∧ ("webBasePath" ∉ db.rows.map Prod.fst → a.webBasePath = "/")
    ∧ ("xrayTemplateConfig" ∉ db.rows.map Prod.fst → a.xrayTemplateConfig = tmpl)
    ∧ ("timeLocation" ∉ db.rows.map Prod.fst → a.timeLocation = "Asia/Shanghai") := by
  unfold GetAllSetting at h
  cases hr : applyStoredRows {} db.rows with
  | error e => rw [hr] at h; exact Except.noConfusion h
  | ok y =>
    rw [hr] at h
    have hd : applyDefaults y (db.rows.map Prod.fst) (defaultValueMap tmpl secret) = .ok a := h
    refine ⟨?_, ?_, ?_, ?_, ?_, ?_, ?_⟩
    · intro hk
      have h2 := hd
      rw [show defaultValueMap tmpl secret =
        [("xrayTemplateConfig", tmpl)] ++ ("webListen", "") ::
          [("webPort", "54321"), ("webCertFile", ""), ("webKeyFile", ""),
           ("secret", secret), ("webBasePath", "/"),
           ("timeLocation", "Asia/Shanghai")] from rfl] at h2
      exact applyDefaults_value (fun x => x.webListen) "webListen" "" ""
        (fun x k' v x' hne hs => setSettingField_frame_webListen hne hs)
        (fun x x' hs => by
          rw [setSettingField_webListen] at hs
          simp only [Except.ok.injEq] at hs
          subst hs
          rfl)
        (by simp) hk h2
    · intro hk
      have h2 := hd
      rw [show defaultValueMap tmpl secret =
        [("xrayTemplateConfig", tmpl), ("webListen", "")] ++ ("webPort", "54321") ::
          [("webCertFile", ""), ("webKeyFile", ""), ("secret", secret),
           ("webBasePath", "/"), ("timeLocation", "Asia/Shanghai")] from rfl] at h2
      exact applyDefaults_value (fun x => x.webPort) "webPort" "54321" 54321
        (fun x k' v x' hne hs => setSettingField_frame_webPort hne hs)
        (fun x x' hs => by
          rw [setSettingField_webPort,
            show goParseInt32 "54321" = .ok 54321 from rfl] at hs
          simp only [Except.ok.injEq] at hs
          subst hs
          rfl)
        (by simp) hk h2
    · intro hk
      have h2 := hd
      rw [show defaultValueMap tmpl secret =
        [("xrayTemplateConfig", tmpl), ("webListen", ""), ("webPort", "54321")] ++
          ("webCertFile", "") ::
          [("webKeyFile", ""), ("secret", secret), ("webBasePath", "/"),
           ("timeLocation", "Asia/Shanghai")] from rfl] at h2
      exact applyDefaults_value (fun x => x.webCertFile) "webCertFile" "" ""
        (fun x k' v x' hne hs => setSettingField_frame_webCertFile hne hs)
        (fun x x' hs => by
          rw [setSettingField_webCertFile] at hs
          simp only [Except.ok.injEq] at hs
          subst hs
          rfl)
        (by simp) hk h2
    · intro hk
      have h2 := hd
      rw [show defaultValueMap tmpl secret =
        [("xrayTemplateConfig", tmpl), ("webListen", ""), ("webPort", "54321"),
         ("webCertFile", "")] ++ ("webKeyFile", "") ::
          [("secret", secret), ("webBasePath", "/"),
           ("timeLocation", "Asia/Shanghai")] from rfl] at h2
      exact applyDefaults_value (fun x => x.webKeyFile) "webKeyFile" "" ""
        (fun x k' v x' hne hs => setSettingField_frame_webKeyFile hne hs)
        (fun x x' hs => by
          rw [setSettingField_webKeyFile] at hs
          simp only [Except.ok.injEq] at hs
          subst hs
          rfl)
        (by simp) hk h2
    · intro hk
      have h2 := hd
      rw [show defaultValueMap tmpl secret =
        [("xrayTemplateConfig", tmpl), ("webListen", ""), ("webPort", "54321"),
         ("webCertFile", ""), ("webKeyFile", ""), ("secret", secret)] ++
          ("webBasePath", "/") :: [("timeLocation", "Asia/Shanghai")] from rfl] at h2
      exact applyDefaults_value (fun x => x.webBasePath) "webBasePath" "/" "/"
        (fun x k' v x' hne hs => setSettingField_frame_webBasePath hne hs)
        (fun x x' hs => by
          rw [setSettingField_webBasePath] at hs
          simp only [Except.ok.injEq] at hs
          subst hs
          rfl)
        (by simp) hk h2
    · intro hk
      have h2 := hd
      rw [show defaultValueMap tmpl secret =
        [] ++ ("xrayTemplateConfig", tmpl) ::
          [("webListen", ""), ("webPort", "54321"), ("webCertFile", ""),
           ("webKeyFile", ""), ("secret", secret), ("webBasePath", "/"),
           ("timeLocation", "Asia/Shanghai")] from rfl] at h2
      exact applyDefaults_value (fun x => x.xrayTemplateConfig) "xrayTemplateConfig" tmpl tmpl
        (fun x k' v x' hne hs => setSettingField_frame_xrayTemplateConfig hne hs)
        (fun x x' hs => by
          rw [setSettingField_xrayTemplateConfig] at hs
          simp only [Except.ok.injEq] at hs
          subst hs
          rfl)
        (by simp) hk h2
    · intro hk
      have h2 := hd
      rw [show defaultValueMap tmpl secret =
        [("xrayTemplateConfig", tmpl), ("webListen", ""), ("webPort", "54321"),
         ("webCertFile", ""), ("webKeyFile", ""), ("secret", secret),
         ("webBasePath", "/")] ++ ("timeLocation", "Asia/Shanghai") :: [] from rfl] at h2
      exact applyDefaults_value (fun x => x.timeLocation) "timeLocation"
        "Asia/Shanghai" "Asia/Shanghai"
        (fun x k' v x' hne hs => setSettingField_frame_timeLocation hne hs)
        (fun x x' hs => by
          rw [setSettingField_timeLocation] at hs
          simp only [Except.ok.injEq] at hs
          subst hs
          rfl)
        (by simp) hk h2

theorem c2_witness :
    ∃ a, GetAllSetting "T" "S" ⟨[], []⟩ = .ok a
      ∧ a.webPort = 54321 ∧ a.webBasePath = "/" ∧ a.webListen = ""
      ∧ a.timeLocation = "Asia/Shanghai" ∧ a.xrayTemplateConfig = "T" := by
  have hga : GetAllSetting "T" "S" ⟨[], []⟩ = .ok
      { webListen := "", webPort := 54321, webCertFile := "", webKeyFile := "",
        webBasePath := "/", xrayTemplateConfig := "T",
        timeLocation := "Asia/Shanghai" } := rfl
  have h := c2_defaults_fill "T" "S" ⟨[], []⟩ _ hga
  exact ⟨_, hga, h.2.1 (by simp), h.2.2.2.2.1 (by simp), h.1 (by simp),
    h.2.2.2.2.2.2 (by simp), h.2.2.2.2.2.1 (by simp)⟩

/-- C5: when validation passes and some per-key writes fail, the write loop
continues past failures: the collected error list is exactly one storage
error per failed key (in field order), every successful key's row holds its
new value after the call, and the telemetry dispatch happens exactly when no
per-key error was collected. -/
theorem c5_partial_failure (db : DB) (a : AllSetting)
    (hv : CheckValid a = none) :
    (UpdateAllSetting db a).2.1 =
      ((fieldPairs a).filter (fun p => p.1 ∈ db.failKeys)).map
        (fun p => GoError.storageWrite p.1)
    ∧ (∀ p ∈ fieldPairs a, p.1 ∉ db.failKeys →
        findRow (UpdateAllSetting db a).1.rows p.1 = some p)
    ∧ ((UpdateAllSetting db a).2.2 = true ↔ (UpdateAllSetting db a).2.1 = []) := by
  have h1 : (UpdateAllSetting db a).1 = (saveAll db (fieldPairs a)).1 := by
    simp [UpdateAllSetting, hv]
  have h2 : (UpdateAllSetting db a).2.1 = (saveAll db (fieldPairs a)).2 := by
    simp [UpdateAllSetting, hv]
  have h3 : (UpdateAllSetting db a).2.2 = (saveAll db (fieldPairs a)).2.isEmpty := by
    simp [UpdateAllSetting, hv]
  refine ⟨?_, ?_, ?_⟩
  · rw [h2]
    exact saveAll_errs _ _
  · intro p hp hpf
    rw [h1]
    exact saveAll_findRow_written _ _ (fieldPairs_keys_nodup a) hp hpf
  · rw [h2, h3]
    exact List.isEmpty_iff

theorem c5_witness :
    (UpdateAllSetting ⟨[("webCertFile", "old")], ["webCertFile"]⟩
        { webPort := 8080, webBasePath := "/p/" }).2.1 =
      [.storageWrite "webCertFile"]
    ∧ findRow (UpdateAllSetting ⟨[("webCertFile", "old")], ["webCertFile"]⟩
        { webPort := 8080, webBasePath := "/p/" }).1.rows "webPort" =
      some ("webPort", "8080") := by
  have h := c5_partial_failure ⟨[("webCertFile", "old")], ["webCertFile"]⟩
    { webPort := 8080, webBasePath := "/p/" } (by decide)
  exact ⟨by rw [h.1]; rfl, h.2.1 ("webPort", "8080") (by decide) (by decide)⟩

/-- C1: a bulk write that passes validation and whose per-key storage writes
all succeed reports no error, dispatches the telemetry notification, and an
immediately following `GetAllSetting` returns exactly the written aggregate —
whether each key's row previously existed (update path) or not (insert
path). -/
theorem c1_write_read_round_trip (tmpl secret : String) (db : DB) (a : AllSetting)
    (hv : CheckValid a = none)
    (hnd : (db.rows.map Prod.fst).Nodup)
    (hfail : ∀ p ∈ fieldPairs a, p.1 ∉ db.failKeys) :
    (UpdateAllSetting db a).2.1 = []
    ∧ (UpdateAllSetting db a).2.2 = true
    ∧ GetAllSetting tmpl secret (UpdateAllSetting db a).1 = .ok a := by
  have h1 : (UpdateAllSetting db a).1 = (saveAll db (fieldPairs a)).1 := by
    simp [UpdateAllSetting, hv]
  have h2 : (UpdateAllSetting db a).2.1 = (saveAll db (fieldPairs a)).2 := by
    simp [UpdateAllSetting, hv]
  have h3 : (UpdateAllSetting db a).2.2 = (saveAll db (fieldPairs a)).2.isEmpty := by
    simp [UpdateAllSetting, hv]
  rcases hsa : saveAll db (fieldPairs a) with ⟨db2, errs2⟩
  have hd1 : (saveAll db (fieldPairs a)).1 = db2 := by rw [hsa]
  have hd2 : (saveAll db (fieldPairs a)).2 = errs2 := by rw [hsa]
  have herrs : errs2 = [] := by
    rw [← hd2, saveAll_errs]
    have hfe : (fieldPairs a).filter (fun p => p.1 ∈ db.failKeys) = [] :=
      List.filter_eq_nil_iff.mpr (fun p hp => by simpa using hfail p hp)
    rw [hfe]
    rfl
  have hport := checkValid_none_port hv
  have h31 : (2 : Int) ^ 31 = 2147483648 := by norm_num
  have hparse : goParseInt32 (goFormatInt a.webPort) = .ok a.webPort :=
    goParseInt32_format (by rw [h31]; omega) (by rw [h31]; omega)
  have hnd' : (db2.rows.map Prod.fst).Nodup := by
    rw [← hd1]
    exact saveAll_keys_nodup _ _ hnd
  have hfw : ∀ p ∈ fieldPairs a, findRow db2.rows p.1 = some p := by
    intro p hp
    rw [← hd1]
    exact saveAll_findRow_written _ _ (fieldPairs_keys_nodup a) hp (hfail p hp)
  have hmemWL : ("webListen", a.webListen) ∈ fieldPairs a := by
    simp [fieldPairs, allSettingFields, goSprint]
  have hmemWP : ("webPort", goFormatInt a.webPort) ∈ fieldPairs a := by
    simp [fieldPairs, allSettingFields, goSprint]
  have hmemCF : ("webCertFile", a.webCertFile) ∈ fieldPairs a := by
    simp [fieldPairs, allSettingFields, goSprint]
  have hmemKF : ("webKeyFile", a.webKeyFile) ∈ fieldPairs a := by
    simp [fieldPairs, allSettingFields, goSprint]
  have hmemBP : ("webBasePath", a.webBasePath) ∈ fieldPairs a := by
    simp [fieldPairs, allSettingFields, goSprint]
  have hmemXT : ("xrayTemplateConfig", a.xrayTemplateConfig) ∈ fieldPairs a := by
    simp [fieldPairs, allSettingFields, goSprint]
  have hmemTL : ("timeLocation", a.timeLocation) ∈ fieldPairs a := by
    simp [fieldPairs, allSettingFields, goSprint]
  have hfWP : findRow db2.rows "webPort" = some ("webPort", goFormatInt a.webPort) :=
    hfw _ hmemWP
  have hWPkeys : "webPort" ∈ db2.rows.map Prod.fst := findRow_some_mem_keys hfWP
  have hsafe : ∀ p ∈ db2.rows, p.1 ≠ "webPort" ∨ ∃ n, goParseInt32 p.2 = .ok n := by
    intro p hp
    by_cases hk : p.1 = "webPort"
    · right
      have hx : findRow db2.rows p.1 = some p := findRow_of_mem_nodup hnd' hp
      rw [hk, hfWP] at hx
      simp only [Option.some.injEq] at hx
      rw [← hx]
      exact ⟨a.webPort, hparse⟩
    · exact Or.inl hk
  obtain ⟨y, hy⟩ := applyStoredRows_ok hsafe ({} : AllSetting)
  have hdefok : ∀ p ∈ defaultValueMap tmpl secret,
      p.1 ∉ db2.rows.map Prod.fst →
      p.1 ≠ "webPort" ∨ ∃ n, goParseInt32 p.2 = .ok n := by
    intro p _ hpk
    by_cases hk : p.1 = "webPort"
    · exact absurd (by rw [hk]; exact hWPkeys) hpk
    · exact Or.inl hk
  obtain ⟨z, hz⟩ := applyDefaults_ok hdefok y
  have hget : GetAllSetting tmpl secret db2 = .ok z := by
    unfold GetAllSetting
    rw [hy]
    exact hz
  have e1 : z.webListen = a.webListen :=
    getAll_field_from_row (fun x => x.webListen) "webListen" a.webListen a.webListen
      tmpl secret
      (fun x k' v' x' hne hs => setSettingField_frame_webListen hne hs)
      (fun x x' hs => by
        rw [setSettingField_webListen] at hs
        simp only [Except.ok.injEq] at hs
        subst hs
        rfl)
      hnd' (hfw _ hmemWL) hy hz
  have e2 : z.webPort = a.webPort :=
    getAll_field_from_row (fun x => x.webPort) "webPort" (goFormatInt a.webPort) a.webPort
      tmpl secret
      (fun x k' v' x' hne hs => setSettingField_frame_webPort hne hs)
      (fun x x' hs => by
        rw [setSettingField_webPort, hparse] at hs
        simp only [Except.ok.injEq] at hs
        subst hs
        rfl)
      hnd' hfWP hy hz
  have e3 : z.webCertFile = a.webCertFile :=
    getAll_field_from_row (fun x => x.webCertFile) "webCertFile" a.webCertFile a.webCertFile
      tmpl secret
      (fun x k' v' x' hne hs => setSettingField_frame_webCertFile hne hs)
      (fun x x' hs => by
        rw [setSettingField_webCertFile] at hs
        simp only [Except.ok.injEq] at hs
        subst hs
        rfl)
      hnd' (hfw _ hmemCF) hy hz
  have e4 : z.webKeyFile = a.webKeyFile :=
    getAll_field_from_row (fun x => x.webKeyFile) "webKeyFile" a.webKeyFile a.webKeyFile
      tmpl secret
      (fun x k' v' x' hne hs => setSettingField_frame_webKeyFile hne hs)
      (fun x x' hs => by
        rw [setSettingField_webKeyFile] at hs
        simp only [Except.ok.injEq] at hs
        subst hs
        rfl)
      hnd' (hfw _ hmemKF) hy hz
  have e5 : z.webBasePath = a.webBasePath :=
    getAll_field_from_row (fun x => x.webBasePath) "webBasePath" a.webBasePath a.webBasePath
      tmpl secret
      (fun x k' v' x' hne hs => setSettingField_frame_webBasePath hne hs)
      (fun x x' hs => by
        rw [setSettingField_webBasePath] at hs
        simp only [Except.ok.injEq] at hs
        subst hs
        rfl)
      hnd' (hfw _ hmemBP) hy hz
  have e6 : z.xrayTemplateConfig = a.xrayTemplateConfig :=
    getAll_field_from_row (fun x => x.xrayTemplateConfig) "xrayTemplateConfig"
      a.xrayTemplateConfig a.xrayTemplateConfig tmpl secret
      (fun x k' v' x' hne hs => setSettingField_frame_xrayTemplateConfig hne hs)
      (fun x x' hs => by
        rw [setSettingField_xrayTemplateConfig] at hs
        simp only [Except.ok.injEq] at hs
        subst hs
        rfl)
      hnd' (hfw _ hmemXT) hy hz
  have e7 : z.timeLocation = a.timeLocation :=
    getAll_field_from_row (fun x => x.timeLocation) "timeLocation"
      a.timeLocation a.timeLocation tmpl secret
      (fun x k' v' x' hne hs => setSettingField_frame_timeLocation hne hs)
      (fun x x' hs => by
        rw [setSettingField_timeLocation] at hs
        simp only [Except.ok.injEq] at hs
        subst hs
        rfl)
      hnd' (hfw _ hmemTL) hy hz
  have hza : z = a := allSetting_eq e1 e2 e3 e4 e5 e6 e7
  refine ⟨?_, ?_, ?_⟩
  · rw [h2, hd2]
    exact herrs
  · rw [h3, hd2, herrs]
    rfl
  · rw [h1, hd1, hget, hza]

theorem c1_witness :
    (UpdateAllSetting ⟨[("webPort", "1"), ("junk", "x")], []⟩
        { webPort := 8080, webBasePath := "/p/" }).2.1 = []
    ∧ GetAllSetting "T" "S"
        (UpdateAllSetting ⟨[("webPort", "1"), ("junk", "x")], []⟩
          { webPort := 8080, webBasePath := "/p/" }).1 =
      .ok { webPort := 8080, webBasePath := "/p/" } := by
  have h := c1_write_read_round_trip "T" "S" ⟨[("webPort", "1"), ("junk", "x")], []⟩
    { webPort := 8080, webBasePath := "/p/" } (by decide) (by decide)
    (fun p _ => by simp)
  exact ⟨h.1, h.2.2⟩

end XUI
